import Mathlib

/-!
Verification development for the assortedbricks inventory pipeline.

Strings are modelled as `List Char` (`chars s` converts a literal); pandas
DataFrames are modelled at the granularity each property needs (lists of
records, or column-name lists plus a row count); remote HTTP calls are
modelled by explicit outcome parameters; calendar dates are modelled as
ordinal day numbers (the code stores and compares dates as `%Y-%m-%d`
strings, a date-only representation).
-/

/-- Characters of a string literal. -/
def chars (s : String) : List Char := s.data

/-- Auxiliary for first-occurrence deduplication: drop every element already
seen, keep the first occurrence of anything new. -/
def dedupFirstAux [DecidableEq α] (seen : List α) : List α → List α
  | [] => []
  | a :: l => if a ∈ seen then dedupFirstAux seen l else a :: dedupFirstAux (a :: seen) l

/-- First-occurrence deduplication, the semantics of Python
`list(dict.fromkeys(xs))` used in `Inventory.create_labels_hirarchy`. -/
def dedupFirst [DecidableEq α] (l : List α) : List α := dedupFirstAux [] l

/-! ## Format adapters: `RebrickableCSV.clean` / `LDCadPBG.clean`

Both `clean` methods perform the identical normalization: keep the leading
digit run of the identity column (`.str.extract` with a leading digit-run
pattern; rows with no digits become NaN and are dropped by `groupby`),
group by that digit string (pandas `groupby` sorts the string keys),
sum `Quantity`, convert the key to `int`, and sort ascending by the
numeric `DesignID`.  Raw entries are `(identity string, quantity)` pairs;
the `Color` column is ignored exactly as in the source. -/

/-- Leading digit run of an identity string (`.str.extract` of a leading
digit-run regex); `none` when the string does not start with a digit (the
extract yields NaN and `groupby` drops the row). -/
def stripId (s : List Char) : Option (List Char) :=
  if s.takeWhile Char.isDigit = [] then none else some (s.takeWhile Char.isDigit)

/-- Numeric value of a digit string, the semantics of `astype(int)` on the
grouped key column. -/
def digitsVal (s : List Char) : Nat :=
  s.foldl (fun n c => n * 10 + (c.toNat - 48)) 0

/-- Boolean lexicographic comparison on char lists by code point: the order
pandas `groupby` uses to sort string group keys. -/
def lexLeB : List Char → List Char → Bool
  | [], _ => true
  | _ :: _, [] => false
  | a :: as, b :: bs => if a = b then lexLeB as bs else decide (a < b)

/-- `groupby` key order as a relation usable by `List.insertionSort`. -/
def keyLe (a b : List Char) : Prop := lexLeB a b = true

instance : DecidableRel keyLe := fun a b =>
  inferInstanceAs (Decidable (lexLeB a b = true))

/-- Final `sort_values(by="DesignID", ascending=True)` order. -/
def idLe (a b : Nat × Nat) : Prop := a.1 ≤ b.1

instance : DecidableRel idLe := fun a b => Nat.decLe a.1 b.1

instance : IsTotal (Nat × Nat) idLe := ⟨fun a b => Nat.le_total a.1 b.1⟩

instance : IsTrans (Nat × Nat) idLe := ⟨fun _ _ _ => Nat.le_trans⟩

/-- Group keys of the raw table: distinct leading digit runs, in the sorted
order `groupby` produces. -/
def cleanKeys (rows : List (List Char × Nat)) : List (List Char) :=
  List.insertionSort keyLe (dedupFirst (rows.filterMap (fun r => stripId r.1)))

/-- Sum of quantities of rows whose identity strips to the digit string `k`
(the `groupby(...)["Quantity"].sum()` value of group `k`). -/
def groupQty (rows : List (List Char × Nat)) (k : List Char) : Nat :=
  ((rows.filter (fun r => decide (stripId r.1 = some k))).map Prod.snd).sum

/-- The shared `clean` normalization of `RebrickableCSV` and `LDCadPBG`:
strip the identity to its leading digit run, group by that digit string and
sum quantity, convert the key to int, sort ascending by the numeric id.
The final sort is modelled stably; pandas leaves ties (possible only when
distinct digit strings denote the same number) in an unspecified order. -/
def clean (rows : List (List Char × Nat)) : List (Nat × Nat) :=
  List.insertionSort idLe
    ((cleanKeys rows).map (fun k => (digitsVal k, groupQty rows k)))

/-- Specification-side sum: total quantity of all raw entries whose identity
strips (leading digit run) to the numeric DesignID `i`. -/
def contribQty (rows : List (List Char × Nat)) (i : Nat) : Nat :=
  ((rows.filter (fun r => decide ((stripId r.1).map digitsVal = some i))).map Prod.snd).sum

/-! ## Label hierarchy encoder: `Inventory.create_labels_hirarchy`

A record's stored `Labels` cell is a comma-joined string; the code splits it
on `","`, computes the maximum depth, collects terms depth-by-depth across
all records (breadth-first across depth), deduplicates keeping first
occurrences, creates one column per non-empty term, and sets a record's
value in a term column from `Series.str.contains(term)` — a regular
expression search over the joined string, which for metacharacter-free
terms is literal substring containment (modelled here as substring
containment). -/

/-- `split(",")` on a char list, Python/pandas semantics: `""` splits to
`[""]`, separators delimit possibly-empty chunks. -/
def splitCommaL : List Char → List (List Char)
  | [] => [[]]
  | c :: rest =>
    if c = ',' then [] :: splitCommaL rest
    else
      match splitCommaL rest with
      | [] => [[c]]
      | h :: t => (c :: h) :: t

/-- `labels_len`: maximum number of split components over the records. -/
def maxDepth (rs : List (List Char)) : Nat :=
  rs.foldl (fun m r => max m (splitCommaL r).length) 0

/-- All terms at depth `i`, in record order (`subarray[i]` when `i` is in
range). -/
def collectDepth (rs : List (List Char)) (i : Nat) : List (List Char) :=
  rs.filterMap (fun r => (splitCommaL r).get? i)

/-- `all_labels` before deduplication: depth 0 across all records, then
depth 1, and so on (breadth-first across depth). -/
def allLabels (rs : List (List Char)) : List (List Char) :=
  (List.range (maxDepth rs)).foldr (fun i acc => collectDepth rs i ++ acc) []

/-- The emitted hierarchy columns: first-occurrence deduplication of
`all_labels`, keeping every non-empty term (the `if label` truthiness test
drops only empty strings; the root term is kept). -/
def hirarchyColumns (rs : List (List Char)) : List (List Char) :=
  (dedupFirst (allLabels rs)).filter (fun l => decide (l ≠ []))

/-- One-hot cell value: `where(labels_str.contains(col), 1, 0)`, i.e. 1 iff
the term occurs as a substring of the record's joined `Labels` string. -/
def oneHotVal (labelsStr col : List Char) : Nat :=
  if col <:+: labelsStr then 1 else 0

/-- Column list of the encoded dataframe: the original `DesignID` and
`Quantity` columns followed by the hierarchy columns (the `Labels` column
is dropped). -/
def encodedCols (rs : List (List Char)) : List (List Char) :=
  chars "DesignID" :: chars "Quantity" :: hirarchyColumns rs

/-! ## Enrichment fetcher: `data/brickarchitect.py`

`get_labels` wraps the whole lookup in `try/except` clauses that catch only
`requests.exceptions.HTTPError` and `AttributeError` (raised when the
`chapternav` div is absent, so `find_all` is called on `None`); timeouts
and connection errors are not caught and propagate.  `get_image` calls
`raise_for_status()` and catches only `HTTPError`.  The remote behaviour is
a parameter: for each queried id it yields a page (final redirected id plus
the optional breadcrumb anchor texts), an HTTP status error, or an uncaught
connection-level failure. -/

inductive LabelsRemote where
  | page (resolvedPart : List Char) (chapternav : Option (List (List Char)))
  | httpStatusError
  | connectionFailure
  deriving DecidableEq

inductive ImageRemote where
  | png (data : List Char)
  | httpStatusError
  | connectionFailure
  deriving DecidableEq

inductive PyError where
  | uncaughtRequestError
  deriving DecidableEq

/-- The fallback root label `'Lego'`. -/
def rootLabel : List Char := chars "Lego"

/-- The breadcrumb head the code rewrites to the root label. -/
def guideTitle : List Char := chars "The LEGO Parts Guide"

/-- `",".join`. -/
def joinComma : List (List Char) → List Char
  | [] => []
  | [x] => x
  | x :: xs => x ++ ',' :: joinComma xs

/-- `get_labels`: returns `(new_part, labels)`.  Labels default to the root
label and `new_part` to the queried id; both are replaced only when the
page yields a non-empty breadcrumb list, in which case `new_part` becomes
the redirected (resolved) id.  `HTTPError` and a missing breadcrumb div are
caught; connection-level failures propagate. -/
def get_labels (remote : List Char → LabelsRemote) (partid : List Char) :
    Except PyError (List Char × List Char) :=
  match remote partid with
  | .connectionFailure => .error .uncaughtRequestError
  | .httpStatusError => .ok (partid, rootLabel)
  | .page _ none => .ok (partid, rootLabel)
  | .page _ (some []) => .ok (partid, rootLabel)
  | .page rid (some (a :: rest)) =>
      .ok (rid, joinComma ((if a = guideTitle then rootLabel else a) :: rest))

/-- `get_image`: `None` on a caught `HTTPError`, the (base64-encoded,
modelled opaquely) bytes on success; connection-level failures propagate. -/
def get_image (remote : List Char → ImageRemote) (partid : List Char) :
    Except PyError (Option (List Char)) :=
  match remote partid with
  | .connectionFailure => .error .uncaughtRequestError
  | .httpStatusError => .ok none
  | .png d => .ok (some d)

/-- `fetch_part_info`: fetch labels, then fetch the image at the id
`get_labels` resolved, and return the ORIGINAL queried id (first component)
with the new labels and image. -/
def fetch_part_info (rl : List Char → LabelsRemote) (ri : List Char → ImageRemote)
    (partid : List Char) : Except PyError (List Char × List Char × Option (List Char)) :=
  (get_labels rl partid).bind (fun r =>
    (get_image ri r.1).map (fun img => (partid, r.2, img)))

/-- A row of the fetch-phase dataframe appended to the `parts` table:
`DesignID`, `Labels`, `Image`, `Updated = today`. -/
structure CacheRow where
  designID : List Char
  labels : List Char
  image : Option (List Char)
  updated : Nat
  deriving DecidableEq

/-- The fetch loop of `Inventory.fetch_missing_parts`: one
`fetch_part_info` per unknown part; `future.result()` re-raises any
uncaught exception, so a single connection failure aborts the whole batch;
otherwise each result becomes a cache row keyed by the tuple's first
component with `Updated = today`. -/
def fetch_rows (rl : List Char → LabelsRemote) (ri : List Char → ImageRemote)
    (today : Nat) : List (List Char) → Except PyError (List CacheRow)
  | [] => .ok []
  | p :: ps =>
    (fetch_part_info rl ri p).bind (fun t =>
      (fetch_rows rl ri today ps).map (fun rest => ⟨t.1, t.2.1, t.2.2, today⟩ :: rest))

/-- The canonical id the remote lookup redirected to (the id `get_labels`
hands to `get_image`): the page's resolved id when the breadcrumb list is
non-empty, otherwise the queried id. -/
def resolvedId (rl : List Char → LabelsRemote) (partid : List Char) : List Char :=
  match rl partid with
  | .page rid (some (_ :: _)) => rid
  | _ => partid

/-- Concrete remote behaviour: id "3002" redirects to canonical id "9999"
with a Technic breadcrumb; everything else yields an HTTP status error. -/
def rlRedirect : List Char → LabelsRemote := fun q =>
  if q = chars "3002" then .page (chars "9999") (some [guideTitle, chars "Technic"])
  else .httpStatusError

/-- Concrete image remote: every id yields a PNG tagged with the id. -/
def riAlways : List Char → ImageRemote := fun q => .png (chars "img" ++ q)

/-- Concrete remote behaviour whose every request times out. -/
def rlTimeout : List Char → LabelsRemote := fun _ => .connectionFailure

/-- Concrete remote behaviour answering every request with an HTTP error. -/
def rlHttpFail : List Char → LabelsRemote := fun _ => .httpStatusError

/-- Concrete image remote answering every request with an HTTP error. -/
def riHttpFail : List Char → ImageRemote := fun _ => .httpStatusError

/-- Condition under which the code recovers the labels fetch: a caught
`HTTPError`, a page without the breadcrumb div, or an empty breadcrumb
list. -/
def labelsFetchFailed (rl : List Char → LabelsRemote) (p : List Char) : Prop :=
  rl p = .httpStatusError ∨ (∃ rid, rl p = .page rid none) ∨ (∃ rid, rl p = .page rid (some []))

/-! ## Staleness refresher: `Inventory.update_images` / `Database`

Database rows have schema `DesignID INTEGER UNIQUE, Labels TEXT NOT NULL,
Image TEXT, Updated TEXT NOT NULL`; `Labels` is always set on every row.
`get_missing_images` selects `(DesignID, Updated)` of rows in the working
set with `Image IS NULL`; the refresher retries exactly those whose
`Updated` date is strictly before today, and `Database.update_image`
formats the fetched value into the SQL text, so a failed retry stores the
literal string "None" (not NULL) and always sets `Updated` to today. -/

structure DbRow where
  designID : Nat
  labels : List Char
  image : Option (List Char)
  updated : Nat
  deriving DecidableEq

/-- `Database.get_missing_images`: rows of the working set with a NULL
image, as `(DesignID, Updated)` pairs. -/
def get_missing_images (workingIds : List Nat) (db : List DbRow) : List (Nat × Nat) :=
  (db.filter (fun r => workingIds.contains r.designID && r.image.isNone)).map
    (fun r => (r.designID, r.updated))

/-- Python `str()` of an optional value as interpolated into the SQL text
by `Database.update_image`: `None` becomes the literal string "None". -/
def pyStr : Option (List Char) → List Char
  | none => chars "None"
  | some s => s

/-- `Database.update_image`: set `Image` to the interpolated text and
`Updated` to today on every row with the given id. -/
def update_image (db : List DbRow) (id : Nat) (image : Option (List Char))
    (today : Nat) : List DbRow :=
  db.map (fun r =>
    if r.designID = id then { r with image := some (pyStr image), updated := today } else r)

/-- The refresher loop body: for each candidate `(DesignID, Updated)` pair
(materialized up front by `fetchall`), fetch and update only when the
stored date is strictly before today.  Returns the updated database and
the ids actually fetched, in order. -/
def run_updates (today : Nat) (fetchImg : Nat → Option (List Char)) :
    List (Nat × Nat) → List DbRow → List DbRow × List Nat
  | [], db => (db, [])
  | pr :: rest, db =>
    if pr.2 < today then
      let out := run_updates today fetchImg rest (update_image db pr.1 (fetchImg pr.1) today)
      (out.1, pr.1 :: out.2)
    else run_updates today fetchImg rest db

/-- `Inventory.update_images`: candidates from the database restricted to
the working set, then the dated retry loop. -/
def update_images (today : Nat) (workingIds : List Nat)
    (fetchImg : Nat → Option (List Char)) (db : List DbRow) : List DbRow × List Nat :=
  run_updates today fetchImg (get_missing_images workingIds db) db

/-! ## Clusterer: `cluster.py kmeans_clusters`

The function performs no validation of its own; outcomes are those of the
scikit-learn calls it makes, modelled from their documented contracts:
`KMeans.fit` validates `n_clusters >= 1` (else
`sklearn.utils._param_validation.InvalidParameterError`) and
`n_samples >= n_clusters` (else a plain `ValueError`); `silhouette_score`
requires the number of distinct assigned labels to lie in
`[2, n_samples - 1]` (else a plain `ValueError`) — k-means with
`n_clusters = k <= n_samples` assigns exactly `k` distinct labels.  The
dataframe is modelled by its ordered column names and row count; on
success the input dataframe has gained the `cluster` assignment column
(the in-place `input_df["cluster"] = kmeans.labels_`), and the returned
summary table has exactly the columns `label`, `Quantity`, `DesignIDs`.
The `seed` argument is forwarded verbatim as `random_state`. -/

structure DF where
  cols : List (List Char)
  nrows : Nat
  deriving DecidableEq

inductive SkError where
  | invalidParameter
  | valueErrorFitSamples
  | valueErrorSilhouetteLabels
  deriving DecidableEq

structure KResult where
  resultColumns : List (List Char)
  kmeansRandomState : Option Int
  deriving DecidableEq

/-- The `cluster` column name. -/
def clusterCol : List Char := chars "cluster"

/-- In-place column assignment `input_df["cluster"] = ...`: appends the
column when absent, overwrites in place when present. -/
def setClusterCol (df : DF) : DF :=
  if clusterCol ∈ df.cols then df else { df with cols := df.cols ++ [clusterCol] }

/-- `kmeans_clusters`: validation outcomes of the scikit-learn calls in
source order, then the in-place mutation and the summary result.  `k` is
the requested cluster count (a non-positive Python int also fails the
`n_clusters` interval validation, represented here by `k = 0`). -/
def kmeans_clusters (df : DF) (k : Nat) (seed : Option Int) :
    Except SkError KResult × DF :=
  if k = 0 then (.error .invalidParameter, df)
  else if df.nrows < k then (.error .valueErrorFitSamples, df)
  else if k = 1 ∨ df.nrows ≤ k then (.error .valueErrorSilhouetteLabels, df)
  else (.ok ⟨[chars "label", chars "Quantity", chars "DesignIDs"], seed⟩, setClusterCol df)

/-- Feature columns of a clustering call: `input_df.iloc[:, 2:]`. -/
def featureCols (df : DF) : List (List Char) := df.cols.drop 2

/-! ## Web-layer seed handling: `assortedbricks.py index`

`int(request.form["seed"])` parses the posted seed; on `ValueError` (empty
or malformed text) the route substitutes `default_rng().integers(low=0,
high=2**32-1)` — a value in `[0, 2^32 - 2]` — stores it, displays it in
the rendered template, and passes it to `Inventory.cluster`.  Python `int`
parsing is modelled for optional surrounding spaces, an optional sign and
a non-empty digit run (digit-group underscores are not modelled; they are
irrelevant to the properties proved). -/

/-- Strip leading and trailing spaces. -/
def stripSpaces (s : List Char) : List Char :=
  ((s.dropWhile (· = ' ')).reverse.dropWhile (· = ' ')).reverse

/-- Signless digit-run parse. -/
def digitsParse (ds : List Char) : Option Nat :=
  if ds = [] then none
  else if ds.all Char.isDigit then some (digitsVal ds) else none

/-- Python `int(str)` semantics (modulo digit-group underscores). -/
def pyIntParse (s : List Char) : Option Int :=
  match stripSpaces s with
  | '-' :: ds => (digitsParse ds).map (fun n => -(n : Int))
  | '+' :: ds => (digitsParse ds).map (fun n => (n : Int))
  | ds => (digitsParse ds).map (fun n => (n : Int))

structure IndexSeedOutcome where
  displayedSeed : Int
  clusterSeed : Option Int
  deriving DecidableEq

/-- The seed value the route ends up using: the parsed form value, or the
fresh random draw on a parse failure. -/
def webSeedUsed (formSeed : List Char) (rngDraw : Nat) : Int :=
  match pyIntParse formSeed with
  | some v => v
  | none => (rngDraw : Int)

/-- The route's observable seed handling: the template displays the used
seed and `inventory.cluster(..., seed=...)` receives the same value. -/
def webIndexSeed (formSeed : List Char) (rngDraw : Nat) : IndexSeedOutcome :=
  ⟨webSeedUsed formSeed rngDraw, some (webSeedUsed formSeed rngDraw)⟩

/-! ## Renderer: `Inventory.as_html` / `__single_cluster_html`

One task per cluster submitted to `ThreadPoolExecutor.map`, which yields
results in submission order regardless of completion order; blocks are
concatenated in that order.  Concurrency is modelled by an explicit
completion order (a permutation of the task indices): results are stored
per task index as they complete and reassembled in index order. -/

structure ClusterRow where
  label : List Char
  quantity : Nat
  deriving DecidableEq

/-- `regex.sub` of the leading category-index pattern (digits, dot,
space). -/
def stripCategoryIndex (s : List Char) : List Char :=
  if s.takeWhile Char.isDigit = [] then s
  else
    match s.drop (s.takeWhile Char.isDigit).length with
    | '.' :: ' ' :: rest => rest
    | _ => s

/-- `__single_cluster_html`: the list of HTML fragments for one cluster —
opening div, label/quantity header, one img per non-null cached image,
closing div, line break. -/
def single_cluster_html (getImgs : ClusterRow → List (Option (List Char)))
    (c : ClusterRow) : List (List Char) :=
  (chars "<div>\n" ::
    (chars "<p style=\"margin: 10px; font-size: 32px;\">" ++ stripCategoryIndex c.label ++
      chars " (" ++ Nat.toDigits 10 c.quantity ++ chars ")</p>\n") ::
    (getImgs c).filterMap (fun im => im.map (fun i =>
      chars "<img src=\"data:image/png;base64," ++ i ++ chars "\" style=\"margin: 10px;\">\n"))) ++
  [chars "</div>\n", chars "<br>"]

/-- One cluster's joined block (`"".join(result)`). -/
def clusterBlock (getImgs : ClusterRow → List (Option (List Char))) (c : ClusterRow) :
    List Char :=
  (single_cluster_html getImgs c).foldl (fun acc p => acc ++ p) []

/-- Sequential rendering: blocks concatenated in the given (sorted) input
order. -/
def as_html (getImgs : ClusterRow → List (Option (List Char)))
    (clusters : List ClusterRow) : List Char :=
  clusters.foldl (fun acc c => acc ++ clusterBlock getImgs c) []

/-- Completion events: processing the tasks in completion order `order`,
each completion delivers its task index and that task's block. -/
def taskResults (blocks : List (List Char)) (order : List Nat) : List (Nat × List Char) :=
  order.filterMap (fun i => (blocks.get? i).map (fun b => (i, b)))

/-- Reassembly in task-index order (the order `executor.map` yields). -/
def reassemble (n : Nat) (events : List (Nat × List Char)) : List (List Char) :=
  (List.range n).filterMap (fun i => (events.find? (fun e => e.1 == i)).map (fun e => e.2))

/-- Concurrent rendering under completion order `order`: blocks computed by
independently completing tasks, reassembled in index order, concatenated. -/
def as_html_concurrent (getImgs : ClusterRow → List (Option (List Char)))
    (clusters : List ClusterRow) (order : List Nat) : List Char :=
  (reassemble clusters.length
      (taskResults (clusters.map (clusterBlock getImgs)) order)).foldl
    (fun acc b => acc ++ b) []

/-- Concrete cached-image source for witness instances: one image present,
one null (skipped by the renderer). -/
def imagesW : ClusterRow → List (Option (List Char)) :=
  fun _ => [some (chars "AAA"), none]

/-! # Helper lemmas -/

theorem mem_dedupFirstAux [DecidableEq α] (seen : List α) (l : List α) (x : α) :
    x ∈ dedupFirstAux seen l ↔ x ∈ l ∧ x ∉ seen := by
  induction l generalizing seen with
  | nil => simp [dedupFirstAux]
  | cons a t ih =>
    by_cases h : a ∈ seen
    · rw [dedupFirstAux, if_pos h, ih]
      constructor
      · exact fun ⟨ht, hs⟩ => ⟨List.mem_cons_of_mem a ht, hs⟩
      · rintro ⟨hx, hs⟩
        rcases List.mem_cons.mp hx with rfl | ht
        · exact absurd h hs
        · exact ⟨ht, hs⟩
    · rw [dedupFirstAux, if_neg h]
      constructor
      · intro hx
        rcases List.mem_cons.mp hx with rfl | hx2
        · exact ⟨List.mem_cons_self x t, h⟩
        · obtain ⟨ht, hs⟩ := (ih (a :: seen)).mp hx2
          exact ⟨List.mem_cons_of_mem a ht, fun hx3 => hs (List.mem_cons_of_mem a hx3)⟩
      · rintro ⟨hx, hs⟩
        rcases List.mem_cons.mp hx with rfl | ht
        · exact List.mem_cons_self x _
        · by_cases hxa : x = a
          · exact hxa ▸ List.mem_cons_self a _
          · refine List.mem_cons_of_mem a ((ih (a :: seen)).mpr ⟨ht, fun hmem => ?_⟩)
            rcases List.mem_cons.mp hmem with h1 | h2
            · exact hxa h1
            · exact hs h2

theorem nodup_dedupFirstAux [DecidableEq α] (seen : List α) (l : List α) :
    (dedupFirstAux seen l).Nodup := by
  induction l generalizing seen with
  | nil => simp [dedupFirstAux]
  | cons a t ih =>
    by_cases h : a ∈ seen
    · simpa [dedupFirstAux, h] using ih seen
    · rw [dedupFirstAux, if_neg h]
      refine List.nodup_cons.mpr ⟨fun hmem => ?_, ih _⟩
      exact ((mem_dedupFirstAux _ _ _).1 hmem).2 (List.mem_cons_self a seen)

theorem mem_dedupFirst [DecidableEq α] (l : List α) (x : α) :
    x ∈ dedupFirst l ↔ x ∈ l := by
  simp [dedupFirst, mem_dedupFirstAux]

theorem nodup_dedupFirst [DecidableEq α] (l : List α) : (dedupFirst l).Nodup :=
  nodup_dedupFirstAux [] l

theorem splitCommaL_head_isPrefix (l : List Char) :
    ∃ h t, splitCommaL l = h :: t ∧ h <+: l := by
  induction l with
  | nil => exact ⟨[], [], rfl, List.nil_prefix⟩
  | cons c rest ih =>
    by_cases hc : c = ','
    · exact ⟨[], splitCommaL rest, by simp [splitCommaL, hc], List.nil_prefix⟩
    · obtain ⟨h, t, heq, hpre⟩ := ih
      obtain ⟨s, hs⟩ := hpre
      refine ⟨c :: h, t, ?_, ⟨s, by simp [hs]⟩⟩
      rw [splitCommaL, if_neg hc, heq]

theorem substring_cons_of {α : Type} (c : α) (x l : List α) (h : x <:+: l) :
    x <:+: c :: l := by
  obtain ⟨s, t, hst⟩ := h
  exact ⟨c :: s, t, by rw [← hst]; rfl⟩

theorem mem_splitCommaL_substring (l x : List Char) (hx : x ∈ splitCommaL l) : x <:+: l := by
  induction l generalizing x with
  | nil =>
    simp only [splitCommaL, List.mem_singleton] at hx
    exact hx ▸ List.nil_infix
  | cons c rest ih =>
    by_cases hc : c = ','
    · rw [splitCommaL, if_pos hc] at hx
      rcases List.mem_cons.mp hx with rfl | hx
      · exact List.nil_infix
      · exact substring_cons_of c x rest (ih x hx)
    · rw [splitCommaL, if_neg hc] at hx
      obtain ⟨h, t, heq, hpre⟩ := splitCommaL_head_isPrefix rest
      rw [heq] at hx
      rcases List.mem_cons.mp hx with rfl | hx
      · obtain ⟨s, hs⟩ := hpre
        exact ⟨[], s, by simp [hs]⟩
      · have : x ∈ splitCommaL rest := heq ▸ List.mem_cons_of_mem h hx
        exact substring_cons_of c x rest (ih x this)

theorem length_le_foldl_max (rs : List (List Char)) (m : Nat) :
    m ≤ rs.foldl (fun acc r => max acc (splitCommaL r).length) m := by
  induction rs generalizing m with
  | nil => exact Nat.le_refl m
  | cons a t ih => exact Nat.le_trans (Nat.le_max_left _ _) (ih _)

theorem length_le_maxDepth (rs : List (List Char)) (r : List Char) (hr : r ∈ rs) :
    (splitCommaL r).length ≤ maxDepth rs := by
  unfold maxDepth
  generalize 0 = m
  induction rs generalizing m with
  | nil => exact absurd hr (List.not_mem_nil r)
  | cons a t ih =>
    rcases List.mem_cons.mp hr with rfl | hr
    · exact Nat.le_trans (Nat.le_max_right m _) (length_le_foldl_max t _)
    · exact ih hr _

theorem mem_foldr_collect (rs : List (List Char)) (L : List Nat) (i : Nat) (x : List Char)
    (hi : i ∈ L) (hx : x ∈ collectDepth rs i) :
    x ∈ L.foldr (fun j acc => collectDepth rs j ++ acc) [] := by
  induction L with
  | nil => exact absurd hi (List.not_mem_nil i)
  | cons j t ih =>
    rcases List.mem_cons.mp hi with rfl | hi
    · exact List.mem_append_left _ hx
    · exact List.mem_append_right _ (ih hi)

theorem mem_hirarchyColumns (rs : List (List Char)) (r col : List Char)
    (hr : r ∈ rs) (hcol : col ∈ splitCommaL r) (hne : col ≠ []) :
    col ∈ hirarchyColumns rs := by
  obtain ⟨i, hi⟩ := List.get?_of_mem hcol
  have hilt : i < (splitCommaL r).length := by
    have := List.get?_eq_some.mp hi
    exact this.1
  have hcollect : col ∈ collectDepth rs i :=
    List.mem_filterMap.mpr ⟨r, hr, by rw [hi]⟩
  have hall : col ∈ allLabels rs :=
    mem_foldr_collect rs _ i col
      (List.mem_range.mpr (Nat.lt_of_lt_of_le hilt (length_le_maxDepth rs r hr))) hcollect
  exact List.mem_filter.mpr ⟨(mem_dedupFirst _ _).mpr hall, by simpa using hne⟩

theorem oneHotVal_of_mem (r col : List Char) (h : col ∈ splitCommaL r) :
    oneHotVal r col = 1 := by
  unfold oneHotVal
  rw [if_pos (mem_splitCommaL_substring r col h)]

/-! # Claim C2: one-hot encoding membership semantics -/

/-- Claim C2 counterexample: the encoding is a substring test, not exact
membership.  For records with labels "Lego,Gears" and "Lego,Gear", the
term "Gear" is a hierarchy column, the first record's value in the "Gear"
column is 1, yet "Gear" is not one of that record's label entries — a
false positive, so the read-back does not reproduce the label set. -/
theorem one_hot_substring_false_positive_cex :
    chars "Gear" ∈ hirarchyColumns [chars "Lego,Gears", chars "Lego,Gear"] ∧
    oneHotVal (chars "Lego,Gears") (chars "Gear") = 1 ∧
    chars "Gear" ∉ splitCommaL (chars "Lego,Gears") := by decide

/-- Claim C2 (amended): a record's value in a term column is 1 iff the term
occurs as a substring of the record's joined Labels string; membership
always implies 1 (no false negatives) and every non-empty label entry gets
a column, so the read-back of the 1-columns reproduces the record's label
set exactly for records where every column term occurring as a substring
is an actual label entry. -/
theorem one_hot_membership_amended (rs : List (List Char)) (r : List Char) (hr : r ∈ rs)
    (hside : ∀ col ∈ hirarchyColumns rs, col <:+: r → col ∈ splitCommaL r) :
    ((hirarchyColumns rs).filter (fun col => decide (oneHotVal r col = 1)))
      = ((hirarchyColumns rs).filter (fun col => decide (col ∈ splitCommaL r))) ∧
    (∀ col ∈ splitCommaL r, oneHotVal r col = 1) ∧
    (∀ col ∈ splitCommaL r, col ≠ [] → col ∈ hirarchyColumns rs) := by
  refine ⟨?_, fun col hc => oneHotVal_of_mem r col hc,
    fun col hc hne => mem_hirarchyColumns rs r col hr hc hne⟩
  refine List.filter_congr ?_
  intro col hcolmem
  rw [decide_eq_decide]
  constructor
  · intro h1
    by_cases hin : col <:+: r
    · exact hside col hcolmem hin
    · rw [oneHotVal, if_neg hin] at h1
      exact absurd h1 (by decide)
  · exact fun hmem => oneHotVal_of_mem r col hmem

/-- Witness for the amended C2 theorem at the two-record Technic example:
the 1-columns of record 1 are exactly its label entries. -/
theorem one_hot_membership_amended_witness :
    ((hirarchyColumns [chars "Lego,Technic,Gears", chars "Lego,Technic,Pins"]).filter
        (fun col => decide (oneHotVal (chars "Lego,Technic,Gears") col = 1)))
      = ((hirarchyColumns [chars "Lego,Technic,Gears", chars "Lego,Technic,Pins"]).filter
        (fun col => decide (col ∈ splitCommaL (chars "Lego,Technic,Gears")))) :=
  (one_hot_membership_amended [chars "Lego,Technic,Gears", chars "Lego,Technic,Pins"]
    (chars "Lego,Technic,Gears") (by decide) (by decide)).1

/-! # Claim C3: hierarchy column construction -/

/-- Claim C3 counterexample: the root term is NOT excluded from the emitted
columns — for the two Technic example records the root "Lego" is a
hierarchy column, so the columns differ from the claimed
["Technic","Gears","Pins"]. -/
theorem hirarchy_columns_root_included_cex :
    chars "Lego" ∈ hirarchyColumns [chars "Lego,Technic,Gears", chars "Lego,Technic,Pins"] ∧
    hirarchyColumns [chars "Lego,Technic,Gears", chars "Lego,Technic,Pins"]
      ≠ [chars "Technic", chars "Gears", chars "Pins"] := by decide

/-- Claim C3 (amended): the encoder builds the column list breadth-first
across depth, appending each newly seen term once (the column list is
duplicate-free), excluding only empty terms — the root term is included.
For the example records the columns are ["Lego","Technic","Gears","Pins"]
and record 1 has Lego=1, Technic=1, Gears=1, Pins=0. -/
theorem hirarchy_columns_amended :
    (∀ rs : List (List Char), (hirarchyColumns rs).Nodup) ∧
    hirarchyColumns [chars "Lego,Technic,Gears", chars "Lego,Technic,Pins"]
      = [chars "Lego", chars "Technic", chars "Gears", chars "Pins"] ∧
    oneHotVal (chars "Lego,Technic,Gears") (chars "Lego") = 1 ∧
    oneHotVal (chars "Lego,Technic,Gears") (chars "Technic") = 1 ∧
    oneHotVal (chars "Lego,Technic,Gears") (chars "Gears") = 1 ∧
    oneHotVal (chars "Lego,Technic,Gears") (chars "Pins") = 0 :=
  ⟨fun _ => (nodup_dedupFirst _).filter _, by decide, by decide, by decide, by decide, by decide⟩

/-! # Fetcher helper lemmas -/

theorem get_labels_shape (rl : List Char → LabelsRemote) (p : List Char) :
    get_labels rl p = .error .uncaughtRequestError ∨
    ∃ ls, get_labels rl p = .ok (resolvedId rl p, ls) := by
  cases hrl : rl p with
  | connectionFailure => exact Or.inl (by rw [get_labels, hrl])
  | httpStatusError => exact Or.inr ⟨rootLabel, by rw [get_labels, hrl, resolvedId, hrl]⟩
  | page rid nav =>
    cases nav with
    | none => exact Or.inr ⟨rootLabel, by rw [get_labels, hrl, resolvedId, hrl]⟩
    | some l =>
      cases l with
      | nil => exact Or.inr ⟨rootLabel, by rw [get_labels, hrl, resolvedId, hrl]⟩
      | cons a rest =>
        exact Or.inr ⟨_, by rw [get_labels, hrl, resolvedId, hrl]⟩

theorem fetch_part_info_ok (rl : List Char → LabelsRemote) (ri : List Char → ImageRemote)
    (p : List Char) (t : List Char × List Char × Option (List Char))
    (h : fetch_part_info rl ri p = .ok t) :
    t.1 = p ∧ get_image ri (resolvedId rl p) = .ok t.2.2 := by
  rw [fetch_part_info] at h
  rcases get_labels_shape rl p with hL | ⟨ls, hL⟩
  · rw [hL] at h
    simp only [Except.bind] at h
    exact Except.noConfusion h
  · rw [hL] at h
    simp only [Except.bind] at h
    cases himg : get_image ri (resolvedId rl p) with
    | error e =>
      rw [himg] at h
      simp only [Except.map] at h
      exact Except.noConfusion h
    | ok img =>
      rw [himg] at h
      simp only [Except.map] at h
      injection h with h2
      rw [← h2]
      exact ⟨rfl, rfl⟩

theorem fetch_rows_ids (rl : List Char → LabelsRemote) (ri : List Char → ImageRemote)
    (today : Nat) (parts : List (List Char)) (rows : List CacheRow)
    (h : fetch_rows rl ri today parts = .ok rows) :
    rows.map CacheRow.designID = parts := by
  induction parts generalizing rows with
  | nil =>
    rw [fetch_rows] at h
    injection h with h2
    rw [← h2]
    rfl
  | cons p ps ih =>
    rw [fetch_rows] at h
    cases hfp : fetch_part_info rl ri p with
    | error e =>
      rw [hfp] at h
      simp only [Except.bind] at h
      exact Except.noConfusion h
    | ok t =>
      rw [hfp] at h
      simp only [Except.bind] at h
      cases hrest : fetch_rows rl ri today ps with
      | error e =>
        rw [hrest] at h
        simp only [Except.map] at h
        exact Except.noConfusion h
      | ok rest =>
        rw [hrest] at h
        simp only [Except.map] at h
        injection h with h2
        rw [← h2]
        show t.1 :: List.map CacheRow.designID rest = p :: ps
        rw [ih rest hrest, (fetch_part_info_ok rl ri p t hfp).1]

theorem get_labels_total (rl : List Char → LabelsRemote) (p : List Char)
    (h : rl p ≠ .connectionFailure) : ∃ v, get_labels rl p = .ok v := by
  cases hrl : rl p with
  | connectionFailure => exact absurd hrl h
  | httpStatusError => exact ⟨_, by rw [get_labels, hrl]⟩
  | page rid nav =>
    cases nav with
    | none => exact ⟨_, by rw [get_labels, hrl]⟩
    | some l =>
      cases l with
      | nil => exact ⟨_, by rw [get_labels, hrl]⟩
      | cons a rest => exact ⟨_, by rw [get_labels, hrl]⟩

theorem get_image_total (ri : List Char → ImageRemote) (q : List Char)
    (h : ri q ≠ .connectionFailure) : ∃ v, get_image ri q = .ok v := by
  cases hri : ri q with
  | connectionFailure => exact absurd hri h
  | httpStatusError => exact ⟨_, by rw [get_image, hri]⟩
  | png d => exact ⟨_, by rw [get_image, hri]⟩

theorem fetch_rows_total (rl : List Char → LabelsRemote) (ri : List Char → ImageRemote)
    (hrl : ∀ q, rl q ≠ .connectionFailure) (hri : ∀ q, ri q ≠ .connectionFailure)
    (today : Nat) (parts : List (List Char)) :
    ∃ rows, fetch_rows rl ri today parts = .ok rows ∧ ∀ row ∈ rows, row.updated = today := by
  induction parts with
  | nil => exact ⟨[], rfl, fun row hrow => absurd hrow (List.not_mem_nil row)⟩
  | cons p ps ih =>
    obtain ⟨rows, hrows, hupd⟩ := ih
    obtain ⟨⟨np, ls⟩, hL⟩ := get_labels_total rl p (hrl p)
    obtain ⟨img, hI⟩ := get_image_total ri np (hri np)
    refine ⟨⟨p, ls, img, today⟩ :: rows, ?_, ?_⟩
    · rw [fetch_rows, fetch_part_info, hL]
      simp [Except.bind, Except.map, hI, hrows]
    · intro row hrow
      rcases List.mem_cons.mp hrow with rfl | hrow
      · rfl
      · exact hupd row hrow

/-! # Claim C4: cache key of fetched metadata -/

/-- Claim C4 counterexample: for a lookup that redirects queried id "3002"
to canonical id "9999", the fetch phase creates a cache row keyed by the
ORIGINAL queried id "3002", not by the resolved id "9999" (which is used
only to fetch the image). -/
theorem fetch_cache_key_resolved_cex :
    resolvedId rlRedirect (chars "3002") = chars "9999" ∧
    fetch_rows rlRedirect riAlways 0 [chars "3002"]
      = .ok [⟨chars "3002", chars "Lego,Technic", some (chars "img9999"), 0⟩] ∧
    chars "3002" ≠ chars "9999" :=
  ⟨rfl, rfl, by decide⟩

/-- Claim C4 (amended): every successfully fetched tuple carries the
ORIGINAL queried id as its first component — so the cache rows created by
the fetch phase are keyed by the queried ids, in order — while the image
is fetched at the id the remote lookup resolved to. -/
theorem fetch_cache_key_original_amended (rl : List Char → LabelsRemote)
    (ri : List Char → ImageRemote) :
    (∀ p t, fetch_part_info rl ri p = .ok t →
        t.1 = p ∧ get_image ri (resolvedId rl p) = .ok t.2.2) ∧
    (∀ today parts rows, fetch_rows rl ri today parts = .ok rows →
        rows.map CacheRow.designID = parts) :=
  ⟨fun p t h => fetch_part_info_ok rl ri p t h,
   fun today parts rows h => fetch_rows_ids rl ri today parts rows h⟩

/-- Witness for the amended C4 theorem: the redirecting lookup produces a
cache row keyed by the queried id "3002". -/
theorem fetch_cache_key_original_amended_witness :
    ([(⟨chars "3002", chars "Lego,Technic", some (chars "img9999"), 7⟩ : CacheRow)]).map
        CacheRow.designID = [chars "3002"] :=
  (fetch_cache_key_original_amended rlRedirect riAlways).2 7 [chars "3002"] _ rfl

/-! # Claim C7: fallback on remote fetch failures -/

/-- Claim C7 counterexample: a connection-level failure (timeout) during
the labels fetch is NOT recovered — it propagates out of `get_labels`, and
`future.result()` re-raises it in the fetch loop, aborting the whole
batch instead of producing a fallback row. -/
theorem fetch_timeout_uncaught_cex :
    get_labels rlTimeout (chars "3001") = .error .uncaughtRequestError ∧
    fetch_rows rlTimeout riAlways 0 [chars "3001"] = .error .uncaughtRequestError :=
  ⟨rfl, rfl⟩

/-- Claim C7 (amended): the failures the code actually catches are
recovered locally — an HTTP status error or a missing/empty breadcrumb
yields Labels = root term only, and an image HTTP error yields a null
image — and when no connection-level failure occurs the whole fetch phase
succeeds with every row stamped Updated = today.  Connection-level
failures (timeouts) are not caught and abort the load. -/
theorem fetch_fallback_amended (rl : List Char → LabelsRemote) (ri : List Char → ImageRemote) :
    (∀ p, labelsFetchFailed rl p → get_labels rl p = .ok (p, rootLabel)) ∧
    (∀ p, ri p = .httpStatusError → get_image ri p = .ok none) ∧
    ((∀ q, rl q ≠ .connectionFailure) → (∀ q, ri q ≠ .connectionFailure) →
      ∀ today parts, ∃ rows, fetch_rows rl ri today parts = .ok rows ∧
        ∀ row ∈ rows, row.updated = today) := by
  refine ⟨?_, ?_, fun hrl hri today parts => fetch_rows_total rl ri hrl hri today parts⟩
  · intro p hp
    rcases hp with hp | ⟨rid, hp⟩ | ⟨rid, hp⟩ <;> rw [get_labels, hp]
  · intro p hp
    rw [get_image, hp]

/-- Witness for the amended C7 theorem: HTTP failures on both fetches are
recovered as the root-only label and the null image. -/
theorem fetch_fallback_amended_witness :
    get_labels rlHttpFail (chars "3001") = .ok (chars "3001", rootLabel) ∧
    get_image riHttpFail (chars "3001") = .ok none :=
  ⟨(fetch_fallback_amended rlHttpFail riHttpFail).1 (chars "3001") (Or.inl rfl),
   (fetch_fallback_amended rlHttpFail riHttpFail).2.1 (chars "3001") rfl⟩

/-! # Claim C5: cluster-count validation -/

/-- Claim C5 counterexample: on a 3-record working set, `k = 1` does NOT
succeed — the call fails in the `silhouette_score` diagnostic (a
`ValueError`, since a single label is outside its valid range) — and
`k = 4 > 3` fails with a plain `ValueError` from `KMeans.fit`, not with
`InvalidParameterError`. -/
theorem kmeans_k_validation_cex :
    (kmeans_clusters ⟨[chars "DesignID", chars "Quantity", chars "Lego"], 3⟩ 1 none).1
      = .error .valueErrorSilhouetteLabels ∧
    (kmeans_clusters ⟨[chars "DesignID", chars "Quantity", chars "Lego"], 3⟩ 4 none).1
      = .error .valueErrorFitSamples ∧
    SkError.valueErrorFitSamples ≠ SkError.invalidParameter ∧
    SkError.valueErrorSilhouetteLabels ≠ SkError.invalidParameter :=
  ⟨rfl, rfl, by decide, by decide⟩

/-- Claim C5 (amended): only `k < 1` raises `InvalidParameterError`;
`k` above the record count raises a plain `ValueError` from `KMeans.fit`;
and because `silhouette_score` needs between 2 and n-1 labels, the call
succeeds exactly when `2 <= k <= n - 1` — in particular `k = 1` and
`k = n` also fail, with a `ValueError` from the diagnostic. -/
theorem kmeans_k_validation_amended (df : DF) (k : Nat) (seed : Option Int) :
    ((kmeans_clusters df k seed).1 = .error .invalidParameter ↔ k = 0) ∧
    (1 ≤ k → df.nrows < k →
      (kmeans_clusters df k seed).1 = .error .valueErrorFitSamples) ∧
    (1 ≤ k → (k = 1 ∨ df.nrows = k) → k ≤ df.nrows →
      (kmeans_clusters df k seed).1 = .error .valueErrorSilhouetteLabels) ∧
    ((kmeans_clusters df k seed).1.toOption.isSome ↔ 2 ≤ k ∧ k + 1 ≤ df.nrows) := by
  refine ⟨?_, ?_, ?_, ?_⟩
  · constructor
    · intro he
      by_contra h0
      rw [kmeans_clusters, if_neg h0] at he
      by_cases h1 : df.nrows < k
      · rw [if_pos h1] at he
        exact SkError.noConfusion (Except.error.inj he)
      · rw [if_neg h1] at he
        by_cases h2 : k = 1 ∨ df.nrows ≤ k
        · rw [if_pos h2] at he
          exact SkError.noConfusion (Except.error.inj he)
        · rw [if_neg h2] at he
          exact Except.noConfusion he
    · intro h0
      rw [kmeans_clusters, if_pos h0]
  · intro hk1 hnk
    rw [kmeans_clusters, if_neg (show ¬ k = 0 by omega), if_pos hnk]
  · intro hk1 hks hkn
    have h0 : ¬ k = 0 := by omega
    have h1 : ¬ df.nrows < k := by omega
    have h2 : k = 1 ∨ df.nrows ≤ k := by rcases hks with h | h <;> omega
    rw [kmeans_clusters, if_neg h0, if_neg h1, if_pos h2]
  · constructor
    · intro hs
      rw [kmeans_clusters] at hs
      by_cases h0 : k = 0
      · rw [if_pos h0] at hs
        simp [Except.toOption] at hs
      · rw [if_neg h0] at hs
        by_cases h1 : df.nrows < k
        · rw [if_pos h1] at hs
          simp [Except.toOption] at hs
        · rw [if_neg h1] at hs
          by_cases h2 : k = 1 ∨ df.nrows ≤ k
          · rw [if_pos h2] at hs
            simp [Except.toOption] at hs
          · push_neg at h2
            omega
    · rintro ⟨hk2, hkn⟩
      rw [kmeans_clusters, if_neg (show ¬ k = 0 by omega),
        if_neg (show ¬ df.nrows < k by omega),
        if_neg (show ¬ (k = 1 ∨ df.nrows ≤ k) by omega)]
      simp [Except.toOption]

/-- Witness for the amended C5 theorem: `k = 5` on a 3-record set fails in
`KMeans.fit` with a `ValueError`. -/
theorem kmeans_k_validation_amended_witness :
    (kmeans_clusters ⟨[chars "DesignID", chars "Quantity", chars "Lego"], 3⟩ 5 none).1
      = .error .valueErrorFitSamples :=
  (kmeans_k_validation_amended ⟨[chars "DesignID", chars "Quantity", chars "Lego"], 3⟩
    5 none).2.1 (by decide) (by decide)

/-! # Claim C6: seed substitution and reporting -/

/-- Claim C6 counterexample: called with seed absent, the core
`kmeans_clusters` draws nothing — the value handed to `KMeans` as
`random_state` is still `none` — and its returned table has columns
`label`, `Quantity`, `DesignIDs` only: no used seed is reported by the
core operation. -/
theorem kmeans_seed_not_reported_cex :
    (kmeans_clusters ⟨[chars "DesignID", chars "Quantity", chars "Lego"], 3⟩ 2 none).1
      = .ok ⟨[chars "label", chars "Quantity", chars "DesignIDs"], none⟩ ∧
    chars "seed" ∉ [chars "label", chars "Quantity", chars "DesignIDs"] :=
  ⟨rfl, by decide⟩

/-- Claim C6 (amended): the fresh-random-seed substitution happens in the
web layer, not in the core: when the posted seed does not parse, the
`index` route uses the freshly drawn value, displays it, and passes the
same value to the clustering call; the core `kmeans_clusters` merely
forwards whatever seed it receives to `KMeans` and returns a table with
no seed column. -/
theorem seed_substitution_web_layer_amended (formSeed : List Char) (rngDraw : Nat)
    (h : pyIntParse formSeed = none) :
    webIndexSeed formSeed rngDraw = ⟨(rngDraw : Int), some ((rngDraw : Int))⟩ ∧
    (∀ df k s r df2, kmeans_clusters df k s = (.ok r, df2) →
      r.kmeansRandomState = s ∧ chars "seed" ∉ r.resultColumns) := by
  constructor
  · rw [webIndexSeed, webSeedUsed, h]
  · intro df k s r df2 hk
    rw [kmeans_clusters] at hk
    by_cases h0 : k = 0
    · rw [if_pos h0] at hk
      exact absurd (congrArg Prod.fst hk) (by simp)
    · rw [if_neg h0] at hk
      by_cases h1 : df.nrows < k
      · rw [if_pos h1] at hk
        exact absurd (congrArg Prod.fst hk) (by simp)
      · rw [if_neg h1] at hk
        by_cases h2 : k = 1 ∨ df.nrows ≤ k
        · rw [if_pos h2] at hk
          exact absurd (congrArg Prod.fst hk) (by simp)
        · rw [if_neg h2] at hk
          have hr := congrArg Prod.fst hk
          simp only at hr
          injection hr with hr2
          rw [← hr2]
          exact ⟨rfl,
            show chars "seed" ∉ [chars "label", chars "Quantity", chars "DesignIDs"] by decide⟩

/-- Witness for the amended C6 theorem at the unparsable form value "abc"
and the concrete draw 12345. -/
theorem seed_substitution_web_layer_amended_witness :
    webIndexSeed (chars "abc") 12345 = ⟨(12345 : Int), some (12345 : Int)⟩ :=
  (seed_substitution_web_layer_amended (chars "abc") 12345 (by decide)).1

/-! # Claim C10: clustering mutates the working set -/

/-- Claim C10: a returning `kmeans_clusters` call has added the `cluster`
assignment column to the caller's dataframe in place, so the working set
is changed, and a later clustering call on it would see `cluster` among
its feature columns (`iloc[:, 2:]`). -/
theorem kmeans_clusters_mutates_input (df : DF) (k : Nat) (seed : Option Int)
    (r : KResult) (df2 : DF) (h : kmeans_clusters df k seed = (.ok r, df2))
    (hnc : clusterCol ∉ df.cols) (hlen : 2 ≤ df.cols.length) :
    df2.cols = df.cols ++ [clusterCol] ∧ df2 ≠ df ∧ clusterCol ∈ featureCols df2 := by
  have hdf2 : df2 = setClusterCol df := by
    rw [kmeans_clusters] at h
    by_cases h0 : k = 0
    · rw [if_pos h0] at h
      exact absurd (congrArg Prod.fst h) (by simp)
    · rw [if_neg h0] at h
      by_cases h1 : df.nrows < k
      · rw [if_pos h1] at h
        exact absurd (congrArg Prod.fst h) (by simp)
      · rw [if_neg h1] at h
        by_cases h2 : k = 1 ∨ df.nrows ≤ k
        · rw [if_pos h2] at h
          exact absurd (congrArg Prod.fst h) (by simp)
        · rw [if_neg h2] at h
          exact (congrArg Prod.snd h).symm
  have hcols : df2.cols = df.cols ++ [clusterCol] := by
    rw [hdf2, setClusterCol, if_neg hnc]
  refine ⟨hcols, ?_, ?_⟩
  · intro heq
    rw [heq] at hcols
    have := congrArg List.length hcols
    simp at this
  · rw [featureCols, hcols, List.drop_append_of_le_length hlen]
    exact List.mem_append_right _ (List.mem_singleton.mpr rfl)

/-- Witness for C10 at a concrete encoded working set. -/
theorem kmeans_clusters_mutates_input_witness :
    (⟨[chars "DesignID", chars "Quantity", chars "Lego", chars "cluster"], 3⟩ : DF).cols
      = [chars "DesignID", chars "Quantity", chars "Lego"] ++ [clusterCol] ∧
    (⟨[chars "DesignID", chars "Quantity", chars "Lego", chars "cluster"], 3⟩ : DF)
      ≠ ⟨[chars "DesignID", chars "Quantity", chars "Lego"], 3⟩ ∧
    clusterCol ∈ featureCols ⟨[chars "DesignID", chars "Quantity", chars "Lego", chars "cluster"], 3⟩ :=
  kmeans_clusters_mutates_input ⟨[chars "DesignID", chars "Quantity", chars "Lego"], 3⟩
    2 none ⟨[chars "label", chars "Quantity", chars "DesignIDs"], none⟩
    ⟨[chars "DesignID", chars "Quantity", chars "Lego", chars "cluster"], 3⟩
    rfl (by decide) (by decide)

/-! # Refresher helper lemmas -/

theorem run_updates_fetched (today : Nat) (fetchImg : Nat → Option (List Char))
    (rows : List (Nat × Nat)) (db : List DbRow) :
    (run_updates today fetchImg rows db).2
      = (rows.filter (fun pr => decide (pr.2 < today))).map Prod.fst := by
  induction rows generalizing db with
  | nil => rfl
  | cons pr rest ih =>
    rw [run_updates]
    by_cases h : pr.2 < today
    · rw [if_pos h]
      show pr.1 :: (run_updates today fetchImg rest
          (update_image db pr.1 (fetchImg pr.1) today)).2 = _
      rw [ih, List.filter_cons]
      simp [h]
    · rw [if_neg h, ih, List.filter_cons]
      simp [h]

theorem mem_update_image (db : List DbRow) (id : Nat) (img : Option (List Char))
    (today : Nat) (r' : DbRow) (h : r' ∈ update_image db id img today) :
    ∃ r ∈ db, r'.designID = r.designID ∧
      (r' = r ∨ (r'.updated = today ∧ r'.image = some (pyStr img))) := by
  rw [update_image] at h
  obtain ⟨r, hr, heq⟩ := List.mem_map.mp h
  by_cases hid : r.designID = id
  · rw [if_pos hid] at heq
    refine ⟨r, hr, ?_, Or.inr ?_⟩
    · rw [← heq]
    · rw [← heq]
      exact ⟨rfl, rfl⟩
  · rw [if_neg hid] at heq
    exact ⟨r, hr, by rw [← heq], Or.inl heq.symm⟩

theorem mem_run_updates (today : Nat) (fetchImg : Nat → Option (List Char))
    (rows : List (Nat × Nat)) (db : List DbRow) (r' : DbRow)
    (h : r' ∈ (run_updates today fetchImg rows db).1) :
    ∃ r ∈ db, r'.designID = r.designID ∧ (r' = r ∨ r'.image.isSome) := by
  induction rows generalizing db with
  | nil => exact ⟨r', h, rfl, Or.inl rfl⟩
  | cons pr rest ih =>
    rw [run_updates] at h
    by_cases hlt : pr.2 < today
    · rw [if_pos hlt] at h
      obtain ⟨r1, hr1, hid1, hcase1⟩ := ih (update_image db pr.1 (fetchImg pr.1) today) h
      obtain ⟨r0, hr0, hid0, hcase0⟩ := mem_update_image db pr.1 (fetchImg pr.1) today r1 hr1
      refine ⟨r0, hr0, hid1.trans hid0, ?_⟩
      rcases hcase1 with rfl | hsome
      · rcases hcase0 with rfl | ⟨_, hi⟩
        · exact Or.inl rfl
        · exact Or.inr (by rw [hi]; rfl)
      · exact Or.inr hsome
    · rw [if_neg hlt] at h
      exact ih db h

theorem update_image_preserves_some (db : List DbRow) (id : Nat) (img : Option (List Char))
    (today : Nat) (p : Nat) (hP : ∀ r ∈ db, r.designID = p → r.image.isSome) :
    ∀ r' ∈ update_image db id img today, r'.designID = p → r'.image.isSome := by
  intro r' hr' hid
  obtain ⟨r, hr, hid2, hcase⟩ := mem_update_image db id img today r' hr'
  rcases hcase with rfl | ⟨_, hi⟩
  · exact hP r' hr hid
  · rw [hi]
    rfl

theorem run_updates_preserves_some (today : Nat) (fetchImg : Nat → Option (List Char))
    (rows : List (Nat × Nat)) (db : List DbRow) (p : Nat)
    (hP : ∀ r ∈ db, r.designID = p → r.image.isSome) :
    ∀ r' ∈ (run_updates today fetchImg rows db).1, r'.designID = p → r'.image.isSome := by
  induction rows generalizing db with
  | nil => exact hP
  | cons pr rest ih =>
    intro r' hr' hid
    rw [run_updates] at hr'
    by_cases hlt : pr.2 < today
    · rw [if_pos hlt] at hr'
      exact ih (update_image db pr.1 (fetchImg pr.1) today)
        (update_image_preserves_some db pr.1 (fetchImg pr.1) today p hP) r' hr' hid
    · rw [if_neg hlt] at hr'
      exact ih db hP r' hr' hid

theorem update_image_sets_some (db : List DbRow) (id : Nat) (img : Option (List Char))
    (today : Nat) :
    ∀ r' ∈ update_image db id img today, r'.designID = id → r'.image.isSome := by
  intro r' hr' hid
  rw [update_image] at hr'
  obtain ⟨r, hr, heq⟩ := List.mem_map.mp hr'
  by_cases h : r.designID = id
  · rw [if_pos h] at heq
    rw [← heq]
    rfl
  · rw [if_neg h] at heq
    rw [← heq] at hid
    exact absurd hid h

theorem run_updates_establishes (today : Nat) (fetchImg : Nat → Option (List Char))
    (rows : List (Nat × Nat)) (db : List DbRow) (p u : Nat)
    (hmem : (p, u) ∈ rows) (hu : u < today) :
    ∀ r' ∈ (run_updates today fetchImg rows db).1, r'.designID = p → r'.image.isSome := by
  induction rows generalizing db with
  | nil => exact absurd hmem (List.not_mem_nil (p, u))
  | cons pr rest ih =>
    intro r' hr' hid
    rw [run_updates] at hr'
    rcases List.mem_cons.mp hmem with heq | hmem2
    · have hlt : pr.2 < today := by rw [← heq]; exact hu
      rw [if_pos hlt] at hr'
      have hp1 : pr.1 = p := by rw [← heq]
      exact run_updates_preserves_some today fetchImg rest _ p
        (hp1 ▸ update_image_sets_some db pr.1 (fetchImg pr.1) today) r' hr' hid
    · by_cases hlt : pr.2 < today
      · rw [if_pos hlt] at hr'
        exact ih _ hmem2 r' hr' hid
      · rw [if_neg hlt] at hr'
        exact ih db hmem2 r' hr' hid

theorem update_images_idempotent_day (today : Nat) (workingIds : List Nat)
    (fetchImg : Nat → Option (List Char)) (db : List DbRow) :
    (update_images today workingIds fetchImg
        (update_images today workingIds fetchImg db).1).2 = [] := by
  rw [update_images, run_updates_fetched]
  suffices hnil : ((get_missing_images workingIds
      (update_images today workingIds fetchImg db).1).filter
        (fun pr => decide (pr.2 < today))) = [] by
    rw [hnil]
    rfl
  rw [List.filter_eq_nil_iff]
  intro pr hpr
  rw [get_missing_images] at hpr
  obtain ⟨r', hr'mem, heq⟩ := List.mem_map.mp hpr
  have hfil := List.mem_filter.mp hr'mem
  have hdb1 : r' ∈ (update_images today workingIds fetchImg db).1 := hfil.1
  have hcond := hfil.2
  simp only [Bool.and_eq_true] at hcond
  obtain ⟨hcont, hnone⟩ := hcond
  have hnone2 : r'.image = none := Option.isNone_iff_eq_none.mp hnone
  simp only [decide_eq_true_eq]
  intro hlt
  have hu : pr.2 = r'.updated := by rw [← heq]
  have hp : pr.1 = r'.designID := by rw [← heq]
  rw [update_images] at hdb1
  obtain ⟨r, hr, hid, hcase⟩ := mem_run_updates today fetchImg _ db r' hdb1
  rcases hcase with rfl | hsome
  · have hmem0 : (r'.designID, r'.updated) ∈ get_missing_images workingIds db := by
      rw [get_missing_images]
      exact List.mem_map.mpr ⟨r', List.mem_filter.mpr
        ⟨hr, by rw [hcont, hnone2]; rfl⟩, rfl⟩
    have hsome2 := run_updates_establishes today fetchImg _ db r'.designID r'.updated
      hmem0 (by rw [← hu]; exact hlt) r' hdb1 rfl
    rw [hnone2] at hsome2
    exact Bool.noConfusion hsome2
  · rw [hnone2] at hsome
    exact Bool.noConfusion hsome

/-! # Claim C8: staleness refresher selection and daily idempotence -/

/-- Claim C8: the refresher fetches exactly the working-set cache rows with
a null image whose stored date is strictly before today (dates compared
date-only; labels are set on every cache row by the NOT NULL schema), and
a second refresher run on the same calendar day performs zero fetches,
since every attempt rewrites the row with Updated = today and a non-null
image text. -/
theorem update_images_once_per_day (today : Nat) (workingIds : List Nat)
    (fetchImg : Nat → Option (List Char)) (db : List DbRow) :
    (update_images today workingIds fetchImg db).2
      = ((get_missing_images workingIds db).filter
          (fun pr => decide (pr.2 < today))).map Prod.fst ∧
    (update_images today workingIds fetchImg
        (update_images today workingIds fetchImg db).1).2 = [] :=
  ⟨run_updates_fetched today fetchImg (get_missing_images workingIds db) db,
   update_images_idempotent_day today workingIds fetchImg db⟩

/-! # Renderer helper lemmas -/

theorem mem_taskResults (blocks : List (List Char)) (order : List Nat) (e : Nat × List Char)
    (h : e ∈ taskResults blocks order) : blocks.get? e.1 = some e.2 := by
  rw [taskResults] at h
  obtain ⟨i, _, heq⟩ := List.mem_filterMap.mp h
  cases hb : blocks.get? i with
  | none => rw [hb] at heq; exact Option.noConfusion heq
  | some b =>
    rw [hb] at heq
    injection heq with h2
    rw [← h2, hb]

theorem taskResults_find (blocks : List (List Char)) (order : List Nat) (i : Nat)
    (hi : i ∈ order) (hlt : i < blocks.length) :
    ∃ b, (taskResults blocks order).find? (fun e => e.1 == i) = some (i, b) ∧
      blocks.get? i = some b := by
  cases hb : blocks.get? i with
  | none =>
    rw [List.get?_eq_none] at hb
    omega
  | some b =>
    have hmem : (i, b) ∈ taskResults blocks order := by
      rw [taskResults]
      exact List.mem_filterMap.mpr ⟨i, hi, by rw [hb]; rfl⟩
    cases hf : (taskResults blocks order).find? (fun e => e.1 == i) with
    | none =>
      have := List.find?_eq_none.mp hf (i, b) hmem
      simp at this
    | some e =>
      obtain ⟨e1, e2⟩ := e
      have he1 : e1 = i := by
        have := List.find?_some hf
        simpa using this
      subst he1
      have hmem2 := List.mem_of_find?_eq_some hf
      have hval := mem_taskResults blocks order (e1, e2) hmem2
      rw [hb] at hval
      injection hval with h2
      exact ⟨e2, rfl, congrArg some h2⟩

theorem range_filterMap_get {α : Type} (l : List α) :
    (List.range l.length).filterMap (fun i => l.get? i) = l := by
  induction l with
  | nil => rfl
  | cons a t ih =>
    simp only [List.length_cons, List.range_succ_eq_map, List.filterMap_cons,
      List.filterMap_map]
    simp only [List.get?_cons_succ, List.get?_cons_zero, Function.comp]
    exact congrArg (a :: ·) ih

theorem reassemble_perm (blocks : List (List Char)) (order : List Nat)
    (hperm : order.Perm (List.range blocks.length)) :
    reassemble blocks.length (taskResults blocks order) = blocks := by
  rw [reassemble]
  have hget : ∀ i ∈ List.range blocks.length,
      ((taskResults blocks order).find? (fun e => e.1 == i)).map (fun e => e.2)
        = blocks.get? i := by
    intro i hi
    have hlt := List.mem_range.mp hi
    have hio : i ∈ order := hperm.mem_iff.mpr hi
    obtain ⟨b, hf, hb⟩ := taskResults_find blocks order i hio hlt
    rw [hf, hb]
    rfl
  rw [List.filterMap_congr hget]
  exact range_filterMap_get blocks

/-! # Claim C9: concurrent rendering equals sequential rendering -/

/-- Claim C9: for every cluster list and every completion order of the
per-cluster tasks (any permutation of the task indices), the concurrently
produced artifact equals the sequential concatenation of the per-cluster
blocks in the given input order — concurrency never reorders output,
because `executor.map` yields results in submission order. -/
theorem as_html_concurrent_eq_sequential (getImgs : ClusterRow → List (Option (List Char)))
    (clusters : List ClusterRow) (order : List Nat)
    (hperm : order.Perm (List.range clusters.length)) :
    as_html_concurrent getImgs clusters order = as_html getImgs clusters := by
  rw [as_html_concurrent, as_html]
  have h1 : reassemble clusters.length (taskResults (clusters.map (clusterBlock getImgs)) order)
      = clusters.map (clusterBlock getImgs) := by
    have h2 := reassemble_perm (clusters.map (clusterBlock getImgs)) order
      (by rw [List.length_map]; exact hperm)
    rwa [List.length_map] at h2
  rw [h1, List.foldl_map]

/-- Witness for C9: two clusters rendered under the reversed completion
order produce the sequential artifact. -/
theorem as_html_concurrent_eq_sequential_witness :
    as_html_concurrent imagesW [⟨chars "1. Technic", 5⟩, ⟨chars "Other", 2⟩] [1, 0]
      = as_html imagesW [⟨chars "1. Technic", 5⟩, ⟨chars "Other", 2⟩] :=
  as_html_concurrent_eq_sequential imagesW
    [⟨chars "1. Technic", 5⟩, ⟨chars "Other", 2⟩] [1, 0] (by decide)

/-! # Normalization helper lemmas -/

theorem mem_cleanKeys (rows : List (List Char × Nat)) (k : List Char) :
    k ∈ cleanKeys rows ↔ ∃ r ∈ rows, stripId r.1 = some k := by
  rw [cleanKeys, (List.perm_insertionSort keyLe _).mem_iff, mem_dedupFirst]
  exact List.mem_filterMap

theorem nodup_cleanKeys (rows : List (List Char × Nat)) : (cleanKeys rows).Nodup :=
  ((List.perm_insertionSort keyLe _).nodup_iff).mpr (nodup_dedupFirst _)

theorem mem_clean (rows : List (List Char × Nat)) (e : Nat × Nat) :
    e ∈ clean rows ↔ ∃ k ∈ cleanKeys rows, e = (digitsVal k, groupQty rows k) := by
  rw [clean, (List.perm_insertionSort idLe _).mem_iff]
  constructor
  · intro h
    obtain ⟨k, hk, heq⟩ := List.mem_map.mp h
    exact ⟨k, hk, heq.symm⟩
  · rintro ⟨k, hk, rfl⟩
    exact List.mem_map_of_mem _ hk

theorem groupQty_eq_contribQty (rows : List (List Char × Nat))
    (hinj : ∀ r1 ∈ rows, ∀ r2 ∈ rows,
      (stripId r1.1).map digitsVal = (stripId r2.1).map digitsVal →
      stripId r1.1 = stripId r2.1)
    (k : List Char) (hk : k ∈ cleanKeys rows) :
    groupQty rows k = contribQty rows (digitsVal k) := by
  have hfeq : rows.filter (fun r => decide (stripId r.1 = some k))
      = rows.filter (fun r => decide ((stripId r.1).map digitsVal = some (digitsVal k))) := by
    apply List.filter_congr
    intro r hr
    rw [decide_eq_decide]
    constructor
    · intro h
      rw [h]
      rfl
    · intro h
      cases hs : stripId r.1 with
      | none => rw [hs] at h; exact Option.noConfusion h
      | some p =>
        rw [hs] at h
        injection h with h2
        obtain ⟨rk, hrk, hsk⟩ := (mem_cleanKeys rows k).mp hk
        have hmapeq : (stripId r.1).map digitsVal = (stripId rk.1).map digitsVal := by
          rw [hs, hsk]
          exact congrArg some h2
        have hse := hinj r hr rk hrk hmapeq
        rw [hs, hsk] at hse
        exact hse
  rw [groupQty, contribQty, hfeq]

/-! # Claim C1: input normalization -/

/-- Claim C1 counterexample: two raw identities whose leading digit runs
differ as strings but denote the same number — "7" and "007" — produce TWO
output records with DesignID 7 (the grouping is by the digit string, and
the numeric conversion happens only afterwards), so normalization does not
always yield one record per distinct numeric DesignID. -/
theorem clean_leading_zero_merge_cex :
    clean [(chars "7", 1), (chars "007", 2)] = [(7, 2), (7, 1)] ∧
    (clean [(chars "7", 1), (chars "007", 2)]).map Prod.fst = [7, 7] ∧
    ¬ ((clean [(chars "7", 1), (chars "007", 2)]).map Prod.fst).Nodup := by
  refine ⟨by decide, by decide, ?_⟩
  intro h
  rw [show (clean [(chars "7", 1), (chars "007", 2)]).map Prod.fst = [7, 7] by decide] at h
  simp at h

/-- Claim C1 (amended): provided distinct leading digit runs of the input
denote distinct numbers (no two entries like "7" and "007"), normalization
yields exactly one record per distinct DesignID (duplicate-free ids),
sorted ascending by DesignID, each record's Quantity being the sum of the
quantities of all raw entries whose identity strips to that DesignID, with
a record for every stripped entry; the spec's example holds as stated. -/
theorem clean_normalization_amended (rows : List (List Char × Nat))
    (hinj : ∀ r1 ∈ rows, ∀ r2 ∈ rows,
      (stripId r1.1).map digitsVal = (stripId r2.1).map digitsVal →
      stripId r1.1 = stripId r2.1) :
    ((clean rows).map Prod.fst).Nodup ∧
    List.Sorted idLe (clean rows) ∧
    (∀ e ∈ clean rows, e.2 = contribQty rows e.1 ∧
      ∃ r ∈ rows, ∃ p, stripId r.1 = some p ∧ digitsVal p = e.1) ∧
    (∀ r ∈ rows, ∀ p, stripId r.1 = some p → ∃ q, (digitsVal p, q) ∈ clean rows) ∧
    clean [(chars "3001", 5), (chars "3002", 2), (chars "3001", 3)]
      = [(3001, 8), (3002, 2)] := by
  have hkeysinj : ∀ x ∈ cleanKeys rows, ∀ y ∈ cleanKeys rows,
      digitsVal x = digitsVal y → x = y := by
    intro x hx y hy hxy
    obtain ⟨r1, hr1, hs1⟩ := (mem_cleanKeys rows x).mp hx
    obtain ⟨r2, hr2, hs2⟩ := (mem_cleanKeys rows y).mp hy
    have hmapeq : (stripId r1.1).map digitsVal = (stripId r2.1).map digitsVal := by
      rw [hs1, hs2]
      exact congrArg some hxy
    have hse := hinj r1 hr1 r2 hr2 hmapeq
    rw [hs1, hs2] at hse
    exact Option.some.inj hse
  refine ⟨?_, List.sorted_insertionSort idLe _, ?_, ?_, by decide⟩
  · have hperm : List.Perm ((clean rows).map Prod.fst)
        (((cleanKeys rows).map (fun k => (digitsVal k, groupQty rows k))).map Prod.fst) :=
      (List.perm_insertionSort idLe _).map Prod.fst
    rw [List.map_map] at hperm
    refine hperm.nodup_iff.mpr ?_
    exact List.Nodup.map_on hkeysinj (nodup_cleanKeys rows)
  · intro e he
    obtain ⟨k, hk, rfl⟩ := (mem_clean rows e).mp he
    obtain ⟨r, hr, hs⟩ := (mem_cleanKeys rows k).mp hk
    exact ⟨groupQty_eq_contribQty rows hinj k hk, r, hr, k, hs, rfl⟩
  · intro r hr p hp
    have hk : p ∈ cleanKeys rows := (mem_cleanKeys rows p).mpr ⟨r, hr, hp⟩
    exact ⟨groupQty rows p, (mem_clean rows _).mpr ⟨p, hk, rfl⟩⟩

/-- Witness for the amended C1 theorem at the spec's example input. -/
theorem clean_normalization_amended_witness :
    ((clean [(chars "3001", 5), (chars "3002", 2), (chars "3001", 3)]).map Prod.fst).Nodup ∧
    clean [(chars "3001", 5), (chars "3002", 2), (chars "3001", 3)]
      = [(3001, 8), (3002, 2)] :=
  ⟨(clean_normalization_amended [(chars "3001", 5), (chars "3002", 2), (chars "3001", 3)]
      (by decide)).1,
   by decide⟩
